import Mathlib

/-
  Verification of the mahotas `_convolve.cpp` kernels against their
  natural-language specification.

  Shallow embedding conventions:
  * array elements and the C `double`/`float` values are modelled as exact
    rationals (ℚ); floating-point rounding is abstracted away;
  * a 1-D row of length `N1` is a function `ℕ → ℚ` (only indices `< N1`
    matter), a 2-D array is `ℕ → ℕ → ℚ` with dims `N0` (rows) and `N1`
    (columns); the element stride is taken to be 1 (dense rows);
  * the per-row scratch buffer `std::vector<T> bufdata; bufdata.resize(N1)`
    is value-initialized, so unwritten slots hold `T() = 0`;
  * C++ `int` division truncates toward zero (`ctdiv` below), and the
    parity test `(x & 1) == 0` on two's-complement ints agrees with
    `x % 2 = 0` for `%` = `Int.emod`.
-/

namespace Mahotas

/-- C++ `/` on `int` truncates toward zero (used for `xmap2 / 2` in `iwavelet`). -/
def ctdiv (a b : ℤ) : ℤ := Int.tdiv a b

/-- Embeds `_access` (src lines 122-127): indices before 0 or at/after `N`
yield the value-initialized `T()`, i.e. 0. -/
def access (data : ℕ → ℚ) (N : ℕ) (p : ℤ) : ℚ :=
  if p < 0 then 0
  else if (N : ℤ) ≤ p then 0
  else data p.toNat

/-- Embeds one row of `haar` (src lines 95-120) up to the copy-back: the
scratch buffer, with `low = buffer` and `high = buffer + N1/2`.  The loop
writes `low[x] = di + di1`, `high[x] = di1 - di` for `x < N1/2`; slots not
covered by either pointer range keep their value-initialized 0. -/
def haarBuf (N1 : ℕ) (d : ℕ → ℚ) (i : ℕ) : ℚ :=
  if i < N1 / 2 then d (2 * i) + d (2 * i + 1)
  else if i < N1 / 2 + N1 / 2 then d (2 * (i - N1 / 2) + 1) - d (2 * (i - N1 / 2))
  else 0

/-- One row of `haar` after the copy-back loop (`data[step*x] = buffer[x]`
for `x < N1`): indices `≥ N1` are untouched. -/
def haarRow (N1 : ℕ) (d : ℕ → ℚ) (i : ℕ) : ℚ :=
  if i < N1 then haarBuf N1 d i else d i

/-- Embeds one row of `ihaar` (src lines 374-399) up to the copy-back:
`low = data`, `high = data + step*N1/2`; for `x < N1/2` the loop writes
`buffer[2x] = (l-h)/2` and `buffer[2x+1] = (l+h)/2`; the remaining slots
keep their value-initialized 0. -/
def ihaarBuf (N1 : ℕ) (d : ℕ → ℚ) (i : ℕ) : ℚ :=
  if i < N1 / 2 + N1 / 2 then
    if i % 2 = 0 then (d (i / 2) - d (N1 / 2 + i / 2)) / 2
    else (d (i / 2) + d (N1 / 2 + i / 2)) / 2
  else 0

/-- One row of `ihaar` after the copy-back loop. -/
def ihaarRow (N1 : ℕ) (d : ℕ → ℚ) (i : ℕ) : ℚ :=
  if i < N1 then ihaarBuf N1 d i else d i

/-- Embeds the inner coefficient loop of `wavelet` (src lines 144-158) at
output index `x`: the fold state is `(l, h, even)` with `even` starting
`true` and toggling each iteration; `cl = coeffs[ncoeffs-ci-1]`,
`ch = (even ? -1 : +1) * coeffs[ci]`. -/
def waveletLoop (c : List ℚ) (N1 : ℕ) (d : ℕ → ℚ) (x : ℕ) : ℚ × ℚ × Bool :=
  (List.range c.length).foldl
    (fun (s : ℚ × ℚ × Bool) ci =>
      let val := access d N1 ((2 * x + ci : ℕ) : ℤ)
      let cl := c.getD (c.length - ci - 1) 0
      let ch := (if s.2.2 then (-1 : ℚ) else 1) * c.getD ci 0
      (s.1 + cl * val, s.2.1 + ch * val, !s.2.2))
    (0, 0, true)

/-- The scratch buffer of one `wavelet` row (src lines 129-165):
`low[x] = l`, `high[x] = h` for `x < N1/2`, written through
`low = buffer`, `high = buffer + N1/2`; uncovered slots keep 0. -/
def waveletBuf (c : List ℚ) (N1 : ℕ) (d : ℕ → ℚ) (i : ℕ) : ℚ :=
  if i < N1 / 2 then (waveletLoop c N1 d i).1
  else if i < N1 / 2 + N1 / 2 then (waveletLoop c N1 d (i - N1 / 2)).2.1
  else 0

/-- One row of `wavelet` after the copy-back loop. -/
def waveletRow (c : List ℚ) (N1 : ℕ) (d : ℕ → ℚ) (i : ℕ) : ℚ :=
  if i < N1 then waveletBuf c N1 d i else d i

/-- Embeds the inner loop of `iwavelet` (src lines 184-198) at output
index `x`: `low = data`, `high = data + step*N1/2` point into the row
being read; taps with even `xmap2 = x+ci-ncoeffs+2` are skipped,
`xmap = xmap2/2` uses C++ truncating division, `cl = coeffs[ci]`,
`ch = (_is_even(ci) ? +1 : -1) * coeffs[ncoeffs-ci-1]`. -/
def iwaveletLoop (c : List ℚ) (N1 : ℕ) (d : ℕ → ℚ) (x : ℕ) : ℚ × ℚ :=
  (List.range c.length).foldl
    (fun (s : ℚ × ℚ) (ci : ℕ) =>
      let xmap2 : ℤ := (x : ℤ) + (ci : ℤ) - (c.length : ℤ) + 2
      if xmap2 % 2 = 0 then s
      else
        let xmap := ctdiv xmap2 2
        let cl := c.getD ci 0
        let ch := (if ci % 2 = 0 then (1 : ℚ) else -1) * c.getD (c.length - ci - 1) 0
        (s.1 + cl * access d (N1 / 2) xmap,
         s.2 + ch * access (fun i => d (N1 / 2 + i)) (N1 / 2) xmap))
    (0, 0)

/-- The scratch buffer of one `iwavelet` row: `buffer[x] = (l+h)/2.` for
every `x < N1`. -/
def iwaveletBuf (c : List ℚ) (N1 : ℕ) (d : ℕ → ℚ) (x : ℕ) : ℚ :=
  ((iwaveletLoop c N1 d x).1 + (iwaveletLoop c N1 d x).2) / 2

/-- One row of `iwavelet` (src lines 170-204) after the copy-back loop. -/
def iwaveletRow (c : List ℚ) (N1 : ℕ) (d : ℕ → ℚ) (i : ℕ) : ℚ :=
  if i < N1 then iwaveletBuf c N1 d i else d i

/-- The 2-D `haar` transform: each of the `N0` rows is transformed
independently and in place. -/
def haar2 (N0 N1 : ℕ) (A : ℕ → ℕ → ℚ) : ℕ → ℕ → ℚ :=
  fun y => if y < N0 then haarRow N1 (A y) else A y

/-- The 2-D `ihaar` transform. -/
def ihaar2 (N0 N1 : ℕ) (A : ℕ → ℕ → ℚ) : ℕ → ℕ → ℚ :=
  fun y => if y < N0 then ihaarRow N1 (A y) else A y

/-- The 2-D `wavelet` transform. -/
def wavelet2 (c : List ℚ) (N0 N1 : ℕ) (A : ℕ → ℕ → ℚ) : ℕ → ℕ → ℚ :=
  fun y => if y < N0 then waveletRow c N1 (A y) else A y

/-- The 2-D `iwavelet` transform. -/
def iwavelet2 (c : List ℚ) (N0 N1 : ℕ) (A : ℕ → ℕ → ℚ) : ℕ → ℕ → ℚ :=
  fun y => if y < N0 then iwaveletRow c N1 (A y) else A y

/-- The Daubechies coefficient table `D2` (src line 227), as exact
rationals standing for the float literals. -/
def D2q : List ℚ := [1, 1]

/-- The Daubechies coefficient table `D4` (src line 228). -/
def D4q : List ℚ := [0.6830127, 1.1830127, 0.3169873, -0.1830127]

/-- The Daubechies coefficient table `D6` (src lines 229-230). -/
def D6q : List ℚ :=
  [0.47046721, 1.14111692, 0.650365, -0.19093442, -0.12083221, 0.0498175]

/-- The Daubechies coefficient table `D8` (src lines 231-232). -/
def D8q : List ℚ :=
  [0.32580343, 1.01094572, 0.8922014, -0.03957503, -0.26450717, 0.0436163,
   0.0465036, -0.01498699]

/-- The Daubechies coefficient table `D10` (src lines 233-234). -/
def D10q : List ℚ :=
  [0.22641898, 0.85394354, 1.02432694, 0.19576696, -0.34265671, -0.04560113,
   0.10970265, -0.0088268, -0.01779187, 0.00471743]

/-- The Daubechies coefficient table `D12` (src lines 235-238). -/
def D12q : List ℚ :=
  [0.157742430, 0.699503810, 1.06226376, 0.445831320, -0.319986600,
   -0.183518060, 0.137888090, 0.0389232100, -0.0446637500, 0.000783251152,
   0.00675606236, -0.00152353381]

/-- The Daubechies coefficient table `D14` (src lines 239-243). -/
def D14q : List ℚ :=
  [0.110099430, 0.560791280, 1.03114849, 0.664372480, -0.203513820,
   -0.316835010, 0.100846700, 0.114003450, -0.0537824500, -0.0234399400,
   0.0177497900, 0.000607514995, -0.00254790472, 0.000500226853]

/-- The Daubechies coefficient table `D16` (src lines 244-249). -/
def D16q : List ℚ :=
  [0.0769556200, 0.442467250, 0.955486150, 0.827816530, -0.0223857400,
   -0.401658630, 0.000668194092, 0.182076360, -0.0245639000, -0.0623502100,
   0.0197721600, 0.0123688400, -0.00688771926, -0.000554004549,
   0.000955229711, -0.000166137261]

/-- The Daubechies coefficient table `D18` (src lines 250-255). -/
def D18q : List ℚ :=
  [0.0538503500, 0.344834300, 0.855349060, 0.929545710, 0.188369550,
   -0.414751760, -0.136953550, 0.210068340, 0.0434526750, -0.0956472600,
   0.000354892813, 0.0316241700, -0.00667962023, -0.00605496058,
   0.00261296728, 0.000325814671, -0.000356329759, 0.0000556455140]

/-- The Daubechies coefficient table `D20` (src lines 256-262). -/
def D20q : List ℚ :=
  [0.0377171600, 0.266122180, 0.745575070, 0.973628110, 0.397637740,
   -0.353336200, -0.277109880, 0.180127450, 0.131602990, -0.100966570,
   -0.0416592500, 0.0469698100, 0.00510043697, -0.0151790000, 0.00197332536,
   0.00281768659, -0.000969947840, -0.000164709006, 0.000132354367,
   -0.0000187584100]

/-- Embeds `dcoeffs` (src lines 311-327): the switch over the order code;
any code outside 0..9 falls through to the error branch (`none`). -/
def dcoeffs (code : ℤ) : Option (List ℚ) :=
  if code = 0 then some D2q
  else if code = 1 then some D4q
  else if code = 2 then some D6q
  else if code = 3 then some D8q
  else if code = 4 then some D10q
  else if code = 5 then some D12q
  else if code = 6 then some D14q
  else if code = 7 then some D16q
  else if code = 8 then some D18q
  else if code = 9 then some D20q
  else none

/-- A 2-D array view at the binding layer: `nd` is the rank reported by
`PyArray_NDIM`; `N0`, `N1` its dims and `val` its elements when `nd = 2`.
Modelled from the spec: the element-type dispatch macros live in
`numpypp/dispatch.hpp` which is not part of the sources here; per the
spec's interface table the element type is abstracted (here: ℚ) and type
dispatch never fails for supported arrays. -/
structure NpArray where
  nd : ℕ
  N0 : ℕ
  N1 : ℕ
  val : ℕ → ℕ → ℚ

/-- The error message object set by `PyErr_SetString(PyExc_RuntimeError,
TypeErrorMsg)` (src lines 17-19). -/
def TypeErrorMsg : String := "Type not understood."

/-- Embeds `py_haar` (src lines 206-222): the only argument check is
`PyArray_NDIM(array) != 2`; on success `haar` mutates the array in place. -/
def pyHaar (a : NpArray) : Option String × NpArray :=
  if a.nd ≠ 2 then (some TypeErrorMsg, a)
  else (none, { a with val := haar2 a.N0 a.N1 a.val })

/-- Embeds `py_ihaar` (src lines 402-418). -/
def pyIhaar (a : NpArray) : Option String × NpArray :=
  if a.nd ≠ 2 then (some TypeErrorMsg, a)
  else (none, { a with val := ihaar2 a.N0 a.N1 a.val })

/-- Embeds `py_daubechies` (src lines 328-349): after the rank-2 check it
calls `dcoeffs(code)`; a null coefficient table aborts the call (`return
NULL`) before any element is touched, otherwise `wavelet` runs in place. -/
def pyDaubechies (a : NpArray) (code : ℤ) : Option String × NpArray :=
  if a.nd ≠ 2 then (some TypeErrorMsg, a)
  else
    match dcoeffs code with
    | none => (some TypeErrorMsg, a)
    | some c => (none, { a with val := wavelet2 c a.N0 a.N1 a.val })

/-- Embeds `py_idaubechies` (src lines 351-372). -/
def pyIdaubechies (a : NpArray) (code : ℤ) : Option String × NpArray :=
  if a.nd ≠ 2 then (some TypeErrorMsg, a)
  else
    match dcoeffs code with
    | none => (some TypeErrorMsg, a)
    | some c => (none, { a with val := iwavelet2 c a.N0 a.N1 a.val })

/-- Modelled from the spec: `filter_iterator` lives in `_filters.h`, which
is not part of the sources here.  Per spec §4.1, for a centered filter in
nearest/ignore mode, tap `j` of a 1-D filter of `fsize` taps addresses
primary coordinate `i + j - fsize/2`; the tap is valid iff that
coordinate is in bounds, and invalid taps are skipped. -/
def tapPos (fsize : ℕ) (i j : ℕ) : ℤ := (i : ℤ) + (j : ℤ) - ((fsize / 2 : ℕ) : ℤ)

/-- Validity of centered tap `j` at primary position `i` (1-D, ignore mode). -/
def tapValid (N fsize : ℕ) (i j : ℕ) : Prop :=
  0 ≤ tapPos fsize i j ∧ tapPos fsize i j < (N : ℤ)

instance (N fsize i j : ℕ) : Decidable (tapValid N fsize i j) := by
  unfold tapValid; infer_instance

/-- The valid tap values collected by the `fiter.retrieve` loop at primary
position `i` (in tap order), as in `rank_filter` src lines 436-439. -/
def validTaps (N fsize : ℕ) (d : ℕ → ℚ) (i : ℕ) : List ℚ :=
  (List.range fsize).filterMap fun j =>
    if tapValid N fsize i j then some (d (tapPos fsize i j).toNat) else none

/-- The scaled rank computed by `rank_filter` (src lines 440-443):
`currank = rank` when all taps are valid, else `int(n * rank/float(N2))`,
i.e. `⌊n·rank/N2⌋` (the float quotient of these small ints truncates to
the exact floor). -/
def currank (N2 rank n : ℕ) : ℕ := if n = N2 then rank else n * rank / N2

/-- Embeds `rank_filter` (src lines 420-448) on a 1-D array of length `N`
with an `fsize`-tap centered structuring element, ignore mode.  The
`neighbours = new T[N2]` buffer starts uninitialized (`none`) and persists
across positions; each position overwrites its first `n` slots.
`std::nth_element(neighbours, neighbours + currank, neighbours + n)` is
modelled as fully sorting the first `n` slots (a sort satisfies
nth_element's postcondition; reads at other indices are only forced when
the partition leaves them no choice).  The code then stores
`neighbours[rank]` — the ORIGINAL rank, not `currank`.  A read of an
uninitialized slot yields `none`. -/
def rankFilterRun (N fsize : ℕ) (rank : ℤ) (d res0 : ℕ → ℚ) : ℕ → Option ℚ :=
  if rank < 0 ∨ (fsize : ℤ) ≤ rank then fun i => some (res0 i)
  else
    let r := rank.toNat
    let final :=
      (List.range N).foldl
        (fun (st : (ℕ → Option ℚ) × (ℕ → Option ℚ)) i =>
          let vals := validTaps N fsize d i
          let n := vals.length
          let sorted := List.insertionSort (· ≤ ·) vals
          let buf : ℕ → Option ℚ := fun j => if j < n then sorted[j]? else st.1 j
          (buf, fun k => if k = i then buf r else st.2 k))
        (fun _ => none, fun i => some (res0 i))
    final.2

/-- Embeds `convolve` (src lines 25-53) on a 1-D array: `cur` accumulates
in `double` (modelled as exact ℚ; the claim under check is about the
accumulator's type, not double's own rounding) and only the final store
converts back to the element type via `castT`.  `valueOf` embeds the
implicit `T`-to-`double` conversions `double(val)` and `fiter[j]`. -/
def convolveModel {α : Type} (valueOf : α → ℚ) (castT : ℚ → α)
    (N fsize : ℕ) (d w : ℕ → α) (i : ℕ) : α :=
  castT
    ((List.range fsize).foldl
      (fun (cur : ℚ) j =>
        if tapValid N fsize i j then
          cur + valueOf (d (tapPos fsize i j).toNat) * valueOf (w j)
        else cur)
      0)

/-- Absolute difference computed the way `template_match` does (src line
490): branch on which operand is larger, then subtract — never
underflowing for unsigned values. -/
def absdiffU (a b : ℕ) : ℕ := if a > b then a - b else b - a

/-- Validity of tap `j` for the non-centered iterator (`centered = false`,
spec §4.1: the filter's origin is anchored at the primary position, so tap
`j` addresses coordinate `i + j`; modelled from the spec, `_filters.h`
not being part of the sources here). -/
def anchorValid (N : ℕ) (i j : ℕ) : Prop := i + j < N

instance (N i j : ℕ) : Decidable (anchorValid N i j) := by
  unfold anchorValid; infer_instance

/-- Embeds `template_match` (src lines 474-496) on a 1-D array whose
elements are unsigned `w`-bit integers (values in `[0, 2^w)`): `diff2`
accumulates in the native element type, i.e. modulo `2^w`, with no
widening. -/
def templateMatchModel (w : ℕ) (N fsize : ℕ) (d t : ℕ → ℕ) (i : ℕ) : ℕ :=
  (List.range fsize).foldl
    (fun diff2 j =>
      if anchorValid N i j then
        let delta := absdiffU (d (i + j)) (t j)
        (diff2 + delta * delta) % 2 ^ w
      else diff2)
    0

/-- The high-pass formula exactly as the specification words it (for
comparison with the code's `waveletRow`): `high[x] = Σ_ci (±1)^ci *
coeffs[ci] * sample(2x+ci)` with the alternating sign starting POSITIVE
at `ci = 0`. -/
def specHighPass (c : List ℚ) (N1 : ℕ) (d : ℕ → ℚ) (x : ℕ) : ℚ :=
  ∑ ci in Finset.range c.length,
    ((if ci % 2 = 0 then (1 : ℚ) else -1) * c.getD ci 0)
      * access d N1 ((2 * x + ci : ℕ) : ℤ)

/-- The in-place transform `py_daubechies` performs on a rank-2 array:
`wavelet` with the selected table; a code with no table aborts the call
before touching the array. -/
def daubechiesTr (code : ℤ) (N0 N1 : ℕ) (A : ℕ → ℕ → ℚ) : ℕ → ℕ → ℚ :=
  match dcoeffs code with
  | some c => wavelet2 c N0 N1 A
  | none => A

/-- The in-place transform `py_idaubechies` performs on a rank-2 array. -/
def idaubechiesTr (code : ℤ) (N0 N1 : ℕ) (A : ℕ → ℕ → ℚ) : ℕ → ℕ → ℚ :=
  match dcoeffs code with
  | some c => iwavelet2 c N0 N1 A
  | none => A

lemma access_coe (d : ℕ → ℚ) (N p : ℕ) (h : p < N) : access d N (p : ℤ) = d p := by
  unfold access
  rw [if_neg (by omega : ¬ ((p : ℤ) < 0)), if_neg (by omega : ¬ ((N : ℤ) ≤ (p : ℤ)))]
  simp

lemma ctdiv_coe (m n : ℕ) : ctdiv (m : ℤ) (n : ℤ) = ((m / n : ℕ) : ℤ) := rfl

lemma haarRow_low (N1 : ℕ) (d : ℕ → ℚ) (x : ℕ) (h : x < N1 / 2) :
    haarRow N1 d x = d (2 * x) + d (2 * x + 1) := by
  unfold haarRow haarBuf
  rw [if_pos (by omega : x < N1), if_pos h]

lemma haarRow_high (N1 : ℕ) (d : ℕ → ℚ) (x : ℕ) (h : x < N1 / 2) :
    haarRow N1 d (N1 / 2 + x) = d (2 * x + 1) - d (2 * x) := by
  unfold haarRow haarBuf
  rw [if_pos (by omega : N1 / 2 + x < N1), if_neg (by omega : ¬ N1 / 2 + x < N1 / 2),
      if_pos (by omega : N1 / 2 + x < N1 / 2 + N1 / 2)]
  have e : N1 / 2 + x - N1 / 2 = x := by omega
  rw [e]

lemma ihaarRow_even (N1 : ℕ) (d : ℕ → ℚ) (x : ℕ) (hx : 2 * x < N1) (h2 : x < N1 / 2) :
    ihaarRow N1 d (2 * x) = (d x - d (N1 / 2 + x)) / 2 := by
  unfold ihaarRow ihaarBuf
  rw [if_pos hx, if_pos (by omega : 2 * x < N1 / 2 + N1 / 2),
      if_pos (by omega : 2 * x % 2 = 0)]
  have e : 2 * x / 2 = x := by omega
  rw [e]

lemma ihaarRow_odd (N1 : ℕ) (d : ℕ → ℚ) (x : ℕ) (hx : 2 * x + 1 < N1) (h2 : x < N1 / 2) :
    ihaarRow N1 d (2 * x + 1) = (d x + d (N1 / 2 + x)) / 2 := by
  unfold ihaarRow ihaarBuf
  rw [if_pos hx, if_pos (by omega : 2 * x + 1 < N1 / 2 + N1 / 2),
      if_neg (by omega : ¬ (2 * x + 1) % 2 = 0)]
  have e : (2 * x + 1) / 2 = x := by omega
  rw [e]

lemma haar_after_ihaar (N1 : ℕ) (hN : N1 % 2 = 0) (d : ℕ → ℚ) (x : ℕ) (hx : x < N1) :
    haarRow N1 (ihaarRow N1 d) x = d x := by
  by_cases h1 : x < N1 / 2
  · rw [haarRow_low _ _ _ h1, ihaarRow_even N1 d x (by omega) h1,
        ihaarRow_odd N1 d x (by omega) h1]
    ring
  · obtain ⟨u, rfl⟩ : ∃ u, x = N1 / 2 + u := ⟨x - N1 / 2, by omega⟩
    have hu : u < N1 / 2 := by omega
    rw [haarRow_high _ _ _ hu, ihaarRow_even N1 d u (by omega) hu,
        ihaarRow_odd N1 d u (by omega) hu]
    ring

lemma ihaar_after_haar (N1 : ℕ) (hN : N1 % 2 = 0) (d : ℕ → ℚ) (x : ℕ) (hx : x < N1) :
    ihaarRow N1 (haarRow N1 d) x = d x := by
  by_cases hpar : x % 2 = 0
  · obtain ⟨u, rfl⟩ : ∃ u, x = 2 * u := ⟨x / 2, by omega⟩
    have hu : u < N1 / 2 := by omega
    rw [ihaarRow_even N1 _ u hx hu, haarRow_low _ _ _ hu, haarRow_high _ _ _ hu]
    ring
  · obtain ⟨u, rfl⟩ : ∃ u, x = 2 * u + 1 := ⟨x / 2, by omega⟩
    have hu : u < N1 / 2 := by omega
    rw [ihaarRow_odd N1 _ u hx hu, haarRow_low _ _ _ hu, haarRow_high _ _ _ hu]
    ring

/-- C4: for every 2-D array with even row length, the dedicated Haar
forward and inverse row transforms are mutually inverse:
`haar(ihaar(A)) = A` and `ihaar(haar(A)) = A` at every element (exactly,
in the exact-rational model of the floating element types). -/
theorem haar_ihaar_roundtrip (N0 N1 : ℕ) (hN : N1 % 2 = 0) (A : ℕ → ℕ → ℚ)
    (y x : ℕ) (hy : y < N0) (hx : x < N1) :
    haar2 N0 N1 (ihaar2 N0 N1 A) y x = A y x ∧
    ihaar2 N0 N1 (haar2 N0 N1 A) y x = A y x := by
  unfold haar2 ihaar2
  simp only [if_pos hy]
  exact ⟨haar_after_ihaar N1 hN (A y) x hx, ihaar_after_haar N1 hN (A y) x hx⟩

/-- Witness for `haar_ihaar_roundtrip` at a concrete array. -/
theorem haar_ihaar_roundtrip_witness :
    (2 % 2 = 0 ∧ 0 < 1 ∧ 1 < 2) ∧
    (haar2 1 2 (ihaar2 1 2 (fun _ x => (x : ℚ))) 0 1 = (fun _ x => (x : ℚ)) 0 1 ∧
     ihaar2 1 2 (haar2 1 2 (fun _ x => (x : ℚ))) 0 1 = (fun _ x => (x : ℚ)) 0 1) :=
  ⟨by decide,
   haar_ihaar_roundtrip 1 2 (by decide) (fun _ x => (x : ℚ)) 0 1 (by decide) (by decide)⟩

lemma waveletFold (F g v : ℕ → ℚ) (n : ℕ) :
    (List.range n).foldl
      (fun (s : ℚ × ℚ × Bool) ci =>
        (s.1 + F ci, s.2.1 + ((if s.2.2 then (-1 : ℚ) else 1) * g ci) * v ci, !s.2.2))
      (0, 0, true)
    = (∑ ci in Finset.range n, F ci,
       ∑ ci in Finset.range n, ((if ci % 2 = 0 then (-1 : ℚ) else 1) * g ci) * v ci,
       decide (n % 2 = 0)) := by
  induction n with
  | zero => simp
  | succ k ih =>
    rw [List.range_succ, List.foldl_append, ih, List.foldl_cons, List.foldl_nil,
        Finset.sum_range_succ, Finset.sum_range_succ]
    by_cases hk : k % 2 = 0
    · have hk1 : ¬ (k + 1) % 2 = 0 := by omega
      simp [hk, hk1, Prod.ext_iff]
    · have hk1 : (k + 1) % 2 = 0 := by omega
      simp [hk, hk1, Prod.ext_iff]

lemma waveletLoop_eq_sums (c : List ℚ) (N1 : ℕ) (d : ℕ → ℚ) (x : ℕ) :
    waveletLoop c N1 d x =
      (∑ ci in Finset.range c.length,
         c.getD (c.length - ci - 1) 0 * access d N1 ((2 * x + ci : ℕ) : ℤ),
       ∑ ci in Finset.range c.length,
         ((if ci % 2 = 0 then (-1 : ℚ) else 1) * c.getD ci 0)
           * access d N1 ((2 * x + ci : ℕ) : ℤ),
       decide (c.length % 2 = 0)) :=
  waveletFold (fun ci => c.getD (c.length - ci - 1) 0 * access d N1 ((2 * x + ci : ℕ) : ℤ))
    (fun ci => c.getD ci 0) (fun ci => access d N1 ((2 * x + ci : ℕ) : ℤ)) c.length

lemma waveletRow_low_eq (c : List ℚ) (N1 : ℕ) (d : ℕ → ℚ) (x : ℕ) (hx : x < N1 / 2) :
    waveletRow c N1 d x
      = ∑ ci in Finset.range c.length,
          c.getD (c.length - ci - 1) 0 * access d N1 ((2 * x + ci : ℕ) : ℤ) := by
  unfold waveletRow waveletBuf
  rw [if_pos (by omega : x < N1), if_pos hx, waveletLoop_eq_sums]

lemma waveletRow_high_eq (c : List ℚ) (N1 : ℕ) (d : ℕ → ℚ) (x : ℕ) (hx : x < N1 / 2) :
    waveletRow c N1 d (N1 / 2 + x)
      = ∑ ci in Finset.range c.length,
          ((if ci % 2 = 0 then (-1 : ℚ) else 1) * c.getD ci 0)
            * access d N1 ((2 * x + ci : ℕ) : ℤ) := by
  unfold waveletRow waveletBuf
  rw [if_pos (by omega : N1 / 2 + x < N1), if_neg (by omega : ¬ N1 / 2 + x < N1 / 2),
      if_pos (by omega : N1 / 2 + x < N1 / 2 + N1 / 2)]
  have e : N1 / 2 + x - N1 / 2 = x := by omega
  rw [e, waveletLoop_eq_sums]

/-- C2 (amended): the forward `wavelet` row transform computes
`low[x] = Σ_ci coeffs[ncoeffs-ci-1] * sample(2x+ci)` and
`high[x] = Σ_ci (±1)^ci * coeffs[ci] * sample(2x+ci)` with the alternating
sign starting NEGATIVE at `ci = 0` (the code sets `even = true` first, and
`ch = (even ? -1 : +1) * coeffs[ci]`); out-of-range sample indices
contribute zero through `access`. -/
theorem wavelet_row_formula (c : List ℚ) (N1 : ℕ) (d : ℕ → ℚ) (x : ℕ) (hx : x < N1 / 2) :
    waveletRow c N1 d x
      = ∑ ci in Finset.range c.length,
          c.getD (c.length - ci - 1) 0 * access d N1 ((2 * x + ci : ℕ) : ℤ) ∧
    waveletRow c N1 d (N1 / 2 + x)
      = ∑ ci in Finset.range c.length,
          ((if ci % 2 = 0 then (-1 : ℚ) else 1) * c.getD ci 0)
            * access d N1 ((2 * x + ci : ℕ) : ℤ) :=
  ⟨waveletRow_low_eq c N1 d x hx, waveletRow_high_eq c N1 d x hx⟩

/-- Witness for `wavelet_row_formula` at a concrete row and coefficients. -/
theorem wavelet_row_formula_witness :
    (0 < 4 / 2) ∧
    (waveletRow D4q 4 (fun i => (i : ℚ)) 0
       = ∑ ci in Finset.range D4q.length,
           D4q.getD (D4q.length - ci - 1) 0
             * access (fun i => (i : ℚ)) 4 ((2 * 0 + ci : ℕ) : ℤ) ∧
     waveletRow D4q 4 (fun i => (i : ℚ)) (4 / 2 + 0)
       = ∑ ci in Finset.range D4q.length,
           ((if ci % 2 = 0 then (-1 : ℚ) else 1) * D4q.getD ci 0)
             * access (fun i => (i : ℚ)) 4 ((2 * 0 + ci : ℕ) : ℤ)) :=
  ⟨by decide, wavelet_row_formula D4q 4 (fun i => (i : ℚ)) 0 (by decide)⟩

/-- C2 counterexample: with the Haar coefficients `{1, 1}` on the row
`[1, 0]`, the code stores `high[0] = -1` (sign starting negative at
`ci = 0`), while the formula as the spec words it — sign starting
positive — gives `+1`. -/
theorem wavelet_high_sign_counterexample :
    waveletRow D2q 2 (fun i => if i = 0 then 1 else 0) 1 = -1 ∧
    specHighPass D2q 2 (fun i => if i = 0 then 1 else 0) 0 = 1 ∧
    waveletRow D2q 2 (fun i => if i = 0 then 1 else 0) 1
      ≠ specHighPass D2q 2 (fun i => if i = 0 then 1 else 0) 0 := by
  refine ⟨?_, ?_, ?_⟩ <;>
    norm_num [waveletRow, waveletBuf, waveletLoop, access, D2q, specHighPass,
      List.range_succ, Finset.sum_range_succ]

lemma ctdiv_two_eq (a : ℤ) (h : 0 ≤ a) : ctdiv a 2 = a / 2 :=
  Int.tdiv_eq_ediv h (by omega)

lemma access_eval (d : ℕ → ℚ) (N : ℕ) (p : ℤ) (k : ℕ) (h : p = (k : ℤ)) (hk : k < N) :
    access d N p = d k := by
  subst h; exact access_coe d N k hk

lemma iwaveletFold (C : ℕ → Prop) [DecidablePred C] (p q : ℕ → ℚ) (n : ℕ) :
    (List.range n).foldl
      (fun (s : ℚ × ℚ) ci => if C ci then s else (s.1 + p ci, s.2 + q ci)) (0, 0)
      = (∑ ci in Finset.range n, if C ci then 0 else p ci,
         ∑ ci in Finset.range n, if C ci then 0 else q ci) := by
  induction n with
  | zero => simp
  | succ k ih =>
    rw [List.range_succ, List.foldl_append, ih, List.foldl_cons, List.foldl_nil,
        Finset.sum_range_succ, Finset.sum_range_succ]
    by_cases hk : C k <;> simp [hk]

lemma iwaveletLoop_eq_sums (c : List ℚ) (N1 : ℕ) (d : ℕ → ℚ) (x : ℕ) :
    iwaveletLoop c N1 d x
      = (∑ ci in Finset.range c.length,
           if ((x : ℤ) + (ci : ℤ) - (c.length : ℤ) + 2) % 2 = 0 then 0
           else c.getD ci 0
                  * access d (N1 / 2) (ctdiv ((x : ℤ) + (ci : ℤ) - (c.length : ℤ) + 2) 2),
         ∑ ci in Finset.range c.length,
           if ((x : ℤ) + (ci : ℤ) - (c.length : ℤ) + 2) % 2 = 0 then 0
           else ((if ci % 2 = 0 then (1 : ℚ) else -1) * c.getD (c.length - ci - 1) 0)
                  * access (fun i => d (N1 / 2 + i)) (N1 / 2)
                      (ctdiv ((x : ℤ) + (ci : ℤ) - (c.length : ℤ) + 2) 2)) :=
  iwaveletFold (fun ci => ((x : ℤ) + (ci : ℤ) - (c.length : ℤ) + 2) % 2 = 0)
    (fun ci => c.getD ci 0
                 * access d (N1 / 2) (ctdiv ((x : ℤ) + (ci : ℤ) - (c.length : ℤ) + 2) 2))
    (fun ci => ((if ci % 2 = 0 then (1 : ℚ) else -1) * c.getD (c.length - ci - 1) 0)
                 * access (fun i => d (N1 / 2 + i)) (N1 / 2)
                     (ctdiv ((x : ℤ) + (ci : ℤ) - (c.length : ℤ) + 2) 2))
    c.length

lemma iwaveletRow_D2_even (N1 : ℕ) (d : ℕ → ℚ) (x : ℕ) (hx : x < N1 / 2) :
    iwaveletRow D2q N1 d (2 * x) = (d x - d (N1 / 2 + x)) / 2 := by
  have hlt : 2 * x < N1 := by omega
  unfold iwaveletRow iwaveletBuf
  rw [if_pos hlt, iwaveletLoop_eq_sums]
  rw [show D2q.length = 2 from rfl]
  rw [Finset.sum_range_succ, Finset.sum_range_succ, Finset.sum_range_zero,
      Finset.sum_range_succ, Finset.sum_range_succ, Finset.sum_range_zero]
  have hA0 : (((2 * x : ℕ) : ℤ) + ((0 : ℕ) : ℤ) - ((2 : ℕ) : ℤ) + 2) % 2 = 0 := by
    push_cast; omega
  have hA1 : ¬ (((2 * x : ℕ) : ℤ) + ((1 : ℕ) : ℤ) - ((2 : ℕ) : ℤ) + 2) % 2 = 0 := by
    push_cast; omega
  rw [if_pos hA0, if_pos hA0, if_neg hA1, if_neg hA1]
  have hZ : ctdiv (((2 * x : ℕ) : ℤ) + ((1 : ℕ) : ℤ) - ((2 : ℕ) : ℤ) + 2) 2
      = ((x : ℕ) : ℤ) := by
    rw [ctdiv_two_eq _ (by push_cast; omega)]
    push_cast
    omega
  rw [hZ, access_coe d (N1 / 2) x hx, access_coe (fun i => d (N1 / 2 + i)) (N1 / 2) x hx]
  norm_num [D2q]
  ring

lemma iwaveletRow_D2_odd (N1 : ℕ) (d : ℕ → ℚ) (x : ℕ) (hx : x < N1 / 2) :
    iwaveletRow D2q N1 d (2 * x + 1) = (d x + d (N1 / 2 + x)) / 2 := by
  have hlt : 2 * x + 1 < N1 := by omega
  unfold iwaveletRow iwaveletBuf
  rw [if_pos hlt, iwaveletLoop_eq_sums]
  rw [show D2q.length = 2 from rfl]
  rw [Finset.sum_range_succ, Finset.sum_range_succ, Finset.sum_range_zero,
      Finset.sum_range_succ, Finset.sum_range_succ, Finset.sum_range_zero]
  have hA0 : ¬ (((2 * x + 1 : ℕ) : ℤ) + ((0 : ℕ) : ℤ) - ((2 : ℕ) : ℤ) + 2) % 2 = 0 := by
    push_cast; omega
  have hA1 : (((2 * x + 1 : ℕ) : ℤ) + ((1 : ℕ) : ℤ) - ((2 : ℕ) : ℤ) + 2) % 2 = 0 := by
    push_cast; omega
  rw [if_neg hA0, if_neg hA0, if_pos hA1, if_pos hA1]
  have hZ : ctdiv (((2 * x + 1 : ℕ) : ℤ) + ((0 : ℕ) : ℤ) - ((2 : ℕ) : ℤ) + 2) 2
      = ((x : ℕ) : ℤ) := by
    rw [ctdiv_two_eq _ (by push_cast; omega)]
    push_cast
    omega
  rw [hZ, access_coe d (N1 / 2) x hx, access_coe (fun i => d (N1 / 2 + i)) (N1 / 2) x hx]
  norm_num [D2q]

lemma waveletRow_D2_low (N1 : ℕ) (d : ℕ → ℚ) (x : ℕ) (hx : x < N1 / 2) :
    waveletRow D2q N1 d x = d (2 * x) + d (2 * x + 1) := by
  rw [waveletRow_low_eq _ _ _ _ hx, show D2q.length = 2 from rfl,
      Finset.sum_range_succ, Finset.sum_range_succ, Finset.sum_range_zero,
      access_eval d N1 _ (2 * x) (by push_cast; omega) (by omega),
      access_eval d N1 _ (2 * x + 1) (by push_cast; omega) (by omega)]
  norm_num [D2q]

lemma waveletRow_D2_high (N1 : ℕ) (d : ℕ → ℚ) (x : ℕ) (hx : x < N1 / 2) :
    waveletRow D2q N1 d (N1 / 2 + x) = d (2 * x + 1) - d (2 * x) := by
  rw [waveletRow_high_eq _ _ _ _ hx, show D2q.length = 2 from rfl,
      Finset.sum_range_succ, Finset.sum_range_succ, Finset.sum_range_zero,
      access_eval d N1 _ (2 * x) (by push_cast; omega) (by omega),
      access_eval d N1 _ (2 * x + 1) (by push_cast; omega) (by omega)]
  norm_num [D2q]
  ring

lemma wavelet_after_iwavelet_D2 (N1 : ℕ) (hN : N1 % 2 = 0) (d : ℕ → ℚ) (x : ℕ)
    (hx : x < N1) :
    waveletRow D2q N1 (iwaveletRow D2q N1 d) x = d x := by
  by_cases h1 : x < N1 / 2
  · rw [waveletRow_D2_low _ _ _ h1, iwaveletRow_D2_even _ _ _ h1,
        iwaveletRow_D2_odd _ _ _ h1]
    ring
  · obtain ⟨u, rfl⟩ : ∃ u, x = N1 / 2 + u := ⟨x - N1 / 2, by omega⟩
    have hu : u < N1 / 2 := by omega
    rw [waveletRow_D2_high _ _ _ hu, iwaveletRow_D2_even _ _ _ hu,
        iwaveletRow_D2_odd _ _ _ hu]
    ring

/-- C3 (amended): for order code 0 (the D2/Haar table), applying
`idaubechies` then `daubechies` restores the array exactly at every
element of every row, including boundaries, whenever the row length is
even.  (For codes 1..9 the round trip fails near the right boundary of
each row — see the counterexample.) -/
theorem daubechies0_roundtrip (N0 N1 : ℕ) (hN : N1 % 2 = 0) (A : ℕ → ℕ → ℚ)
    (y x : ℕ) (hy : y < N0) (hx : x < N1) :
    daubechiesTr 0 N0 N1 (idaubechiesTr 0 N0 N1 A) y x = A y x := by
  have h0 : dcoeffs 0 = some D2q := rfl
  unfold daubechiesTr idaubechiesTr
  rw [h0]
  unfold wavelet2 iwavelet2
  simp only [if_pos hy]
  exact wavelet_after_iwavelet_D2 N1 hN (A y) x hx

/-- Witness for `daubechies0_roundtrip` at a concrete array. -/
theorem daubechies0_roundtrip_witness :
    (2 % 2 = 0 ∧ 0 < 1 ∧ 1 < 2) ∧
    daubechiesTr 0 1 2 (idaubechiesTr 0 1 2 (fun _ x => (x : ℚ))) 0 1
      = (fun _ x => (x : ℚ)) 0 1 :=
  ⟨by decide,
   daubechies0_roundtrip 1 2 (by decide) (fun _ x => (x : ℚ)) 0 1 (by decide) (by decide)⟩

/-- C3 counterexample: for order code 1 (D4) on the constant 1×4 array of
ones, `daubechies(idaubechies(A,1),1)` yields `0.3169873` at position
`(0,1)` instead of `1` — an error of `0.6830127`, far beyond floating
tolerance — so the round trip fails near the row boundary for codes ≥ 1. -/
theorem daubechies_roundtrip_boundary_counterexample :
    daubechiesTr 1 1 4 (idaubechiesTr 1 1 4 (fun _ _ => 1)) 0 1 = 0.3169873 ∧
    (1 : ℚ) - 0.3169873 > 1 / 2 := by
  have hc : dcoeffs 1 = some D4q := rfl
  have t1 : ctdiv 1 2 = 0 := by decide
  have t3 : ctdiv 3 2 = 1 := by decide
  constructor
  · norm_num [daubechiesTr, idaubechiesTr, hc, wavelet2, iwavelet2, waveletRow,
      waveletBuf, waveletLoop, iwaveletRow, iwaveletBuf, iwaveletLoop, access,
      t1, t3, D4q, List.range_succ]
  · norm_num

/-- C10 (amended): for odd row length `N1`, both forward row transforms
copy the value-initialized, never-written final scratch-buffer slot over
the row's last element, so `haar` and `wavelet` write 0 there (for `haar`
only samples `0..N1-2` participate; `wavelet` with more than two taps may
also read sample `N1-1`, but only into the low/high halves — see the
counterexample). -/
theorem odd_row_last_element_zero (c : List ℚ) (N0 N1 : ℕ) (hN : N1 % 2 = 1)
    (A : ℕ → ℕ → ℚ) (y : ℕ) (hy : y < N0) :
    haar2 N0 N1 A y (N1 - 1) = 0 ∧ wavelet2 c N0 N1 A y (N1 - 1) = 0 := by
  have h1 : N1 - 1 < N1 := by omega
  have h2 : ¬ N1 - 1 < N1 / 2 := by omega
  have h3 : ¬ N1 - 1 < N1 / 2 + N1 / 2 := by omega
  constructor
  · unfold haar2
    rw [if_pos hy]
    unfold haarRow
    rw [if_pos h1]
    unfold haarBuf
    rw [if_neg h2, if_neg h3]
  · unfold wavelet2
    rw [if_pos hy]
    unfold waveletRow
    rw [if_pos h1]
    unfold waveletBuf
    rw [if_neg h2, if_neg h3]

/-- Witness for `odd_row_last_element_zero` at a concrete odd-width array. -/
theorem odd_row_last_element_zero_witness :
    (3 % 2 = 1 ∧ 0 < 1) ∧
    (haar2 1 3 (fun _ x => (x : ℚ)) 0 (3 - 1) = 0 ∧
     wavelet2 [1, 1] 1 3 (fun _ x => (x : ℚ)) 0 (3 - 1) = 0) :=
  ⟨by decide,
   odd_row_last_element_zero [1, 1] 1 3 (by decide) (fun _ x => (x : ℚ)) 0 (by decide)⟩

/-- C10 counterexample: with four taps on an odd row of length 5, the last
sample (index 4 = N1-1) DOES participate in the recurrence: two inputs
agreeing on samples 0..3 and differing only at sample 4 give different
outputs at row position 1 (`low[1]` reads samples 2,3,4). -/
theorem wavelet_last_sample_participates :
    wavelet2 [1, 1, 1, 1] 1 5 (fun _ x => if x = 4 then 1 else 0) 0 1 = 1 ∧
    wavelet2 [1, 1, 1, 1] 1 5 (fun _ _ => 0) 0 1 = 0 := by
  constructor <;>
    norm_num [wavelet2, waveletRow, waveletBuf, waveletLoop, access, List.range_succ,
      show Int.toNat 2 = 2 from rfl, show Int.toNat 3 = 3 from rfl,
      show Int.toNat 4 = 4 from rfl]

/-- C1: evaluating `rank_filter` on A = [1,2,3] with a flat centered
3-tap element in ignore mode and rank 1 (= N2/2): at position 0 only 2
taps are valid (`n = 2`), the scaled rank is `currank = ⌊2·1/3⌋ = 0`, yet
the code stores `neighbours[rank] = neighbours[1] = 2` (src line 445 uses
`rank`, not `currank`), while the element at the scaled rank is 1. -/
theorem rank_filter_writes_unscaled_rank :
    rankFilterRun 3 3 1 (fun i => if i = 0 then 1 else if i = 1 then 2 else 3)
        (fun _ => 0) 0 = some 2 ∧
    (List.insertionSort (· ≤ ·)
        (validTaps 3 3 (fun i => if i = 0 then 1 else if i = 1 then 2 else 3) 0))[
      currank 3 1
        (validTaps 3 3 (fun i => if i = 0 then 1 else if i = 1 then 2 else 3) 0).length]?
      = some 1 := by
  decide

/-- C5: a rank outside `[0, N2)` makes `rank_filter` return immediately:
no error is reported and every element of the pre-existing output is left
unchanged. -/
theorem rank_filter_invalid_rank_noop (N fsize : ℕ) (rank : ℤ) (d res0 : ℕ → ℚ)
    (h : rank < 0 ∨ (fsize : ℤ) ≤ rank) :
    rankFilterRun N fsize rank d res0 = fun i => some (res0 i) := by
  unfold rankFilterRun
  rw [if_pos h]

/-- Witness for `rank_filter_invalid_rank_noop` with rank 5 ≥ N2 = 3. -/
theorem rank_filter_invalid_rank_noop_witness :
    ((5 : ℤ) < 0 ∨ ((3 : ℕ) : ℤ) ≤ 5) ∧
    rankFilterRun 2 3 5 (fun _ => 1) (fun _ => 7) = fun i => some ((fun _ => (7 : ℚ)) i) :=
  ⟨by decide, rank_filter_invalid_rank_noop 2 3 5 (fun _ => 1) (fun _ => 7) (by decide)⟩

/-- C6: `py_haar` and `py_ihaar` fail exactly when the array's rank is not
2, and otherwise mutate the array in place with the row transform.  (The
element-type dispatch is modelled from the spec's interface table, the
dispatch macro not being part of the sources here.) -/
theorem haar_ihaar_failure_iff_rank (a : NpArray) :
    ((pyHaar a).1 ≠ none ↔ a.nd ≠ 2) ∧ ((pyIhaar a).1 ≠ none ↔ a.nd ≠ 2) ∧
    (a.nd = 2 →
      pyHaar a = (none, { a with val := haar2 a.N0 a.N1 a.val }) ∧
      pyIhaar a = (none, { a with val := ihaar2 a.N0 a.N1 a.val })) := by
  unfold pyHaar pyIhaar
  by_cases h : a.nd = 2 <;> simp [h]

/-- Witness for `haar_ihaar_failure_iff_rank` at a concrete rank-2 array. -/
theorem haar_ihaar_failure_iff_rank_witness :
    ((pyHaar ⟨2, 1, 2, fun _ _ => 0⟩).1 ≠ none ↔ (2 : ℕ) ≠ 2) ∧
    ((pyIhaar ⟨2, 1, 2, fun _ _ => 0⟩).1 ≠ none ↔ (2 : ℕ) ≠ 2) ∧
    ((2 : ℕ) = 2 →
      pyHaar ⟨2, 1, 2, fun _ _ => 0⟩
        = (none, { NpArray.mk 2 1 2 (fun _ _ => 0) with
                     val := haar2 1 2 (fun _ _ => 0) }) ∧
      pyIhaar ⟨2, 1, 2, fun _ _ => 0⟩
        = (none, { NpArray.mk 2 1 2 (fun _ _ => 0) with
                     val := ihaar2 1 2 (fun _ _ => 0) })) :=
  haar_ihaar_failure_iff_rank ⟨2, 1, 2, fun _ _ => 0⟩

lemma foldl_if_add (P : ℕ → Prop) [DecidablePred P] (f : ℕ → ℚ) (n : ℕ) :
    (List.range n).foldl (fun c j => if P j then c + f j else c) 0
      = ∑ j in (Finset.range n).filter P, f j := by
  induction n with
  | zero => simp
  | succ k ih =>
    rw [List.range_succ, List.foldl_append, List.foldl_cons, List.foldl_nil, ih,
        Finset.range_succ, Finset.filter_insert]
    by_cases h : P k
    · rw [if_pos h, if_pos h, Finset.sum_insert (by simp)]
      ring
    · rw [if_neg h, if_neg h]

/-- C7: at every primary position, `convolve` accumulates
`Σ_valid_j weight(j)·value(j)` exactly in the double accumulator (no
intermediate conversion to the element type), and the cast back to `T`
(`castT`, arbitrary here) is applied exactly once, to the finished sum. -/
theorem convolve_double_accumulation {α : Type} (valueOf : α → ℚ) (castT : ℚ → α)
    (N fsize : ℕ) (d w : ℕ → α) (i : ℕ) :
    convolveModel valueOf castT N fsize d w i
      = castT (∑ j in (Finset.range fsize).filter (fun j => tapValid N fsize i j),
          valueOf (d (tapPos fsize i j).toNat) * valueOf (w j)) :=
  congrArg castT
    (foldl_if_add (fun j => tapValid N fsize i j)
      (fun j => valueOf (d (tapPos fsize i j).toNat) * valueOf (w j)) fsize)

lemma absdiffU_eq_natAbs (a b : ℕ) : absdiffU a b = ((a : ℤ) - (b : ℤ)).natAbs := by
  unfold absdiffU
  split <;> omega

lemma foldl_if_addmod (P : ℕ → Prop) [DecidablePred P] (f : ℕ → ℕ) (m n : ℕ) :
    (List.range n).foldl (fun c j => if P j then (c + f j) % m else c) 0
      = (∑ j in (Finset.range n).filter P, f j) % m := by
  induction n with
  | zero => simp
  | succ k ih =>
    rw [List.range_succ, List.foldl_append, List.foldl_cons, List.foldl_nil, ih,
        Finset.range_succ, Finset.filter_insert]
    by_cases h : P k
    · rw [if_pos h, if_pos h, Finset.sum_insert (by simp), Nat.mod_add_mod,
          Nat.add_comm]
    · rw [if_neg h, if_neg h]

/-- C8: at every position, `template_match` stores
`Σ_valid_j |value(j) − tap(j)|²` where the absolute difference is computed
by branching on the larger operand (never underflowing for unsigned `T`),
accumulated in the native `w`-bit unsigned type — i.e. modulo `2^w`, with
no widening. -/
theorem template_match_sum_sq_absdiff (w N fsize : ℕ) (d t : ℕ → ℕ) (i : ℕ) :
    templateMatchModel w N fsize d t i
      = (∑ j in (Finset.range fsize).filter (fun j => anchorValid N i j),
          ((d (i + j) : ℤ) - (t j : ℤ)).natAbs ^ 2) % 2 ^ w := by
  unfold templateMatchModel
  refine (foldl_if_addmod (fun j => anchorValid N i j)
      (fun j => absdiffU (d (i + j)) (t j) * absdiffU (d (i + j)) (t j))
      (2 ^ w) fsize).trans ?_
  congr 1
  refine Finset.sum_congr rfl fun j hj => ?_
  rw [absdiffU_eq_natAbs, pow_two]

/-- C9: any order code outside 0..9 makes both `py_daubechies` and
`py_idaubechies` fail with the invalid-argument error from `dcoeffs`
before any element is processed: the array state is returned unchanged. -/
theorem daubechies_invalid_code_error (a : NpArray) (code : ℤ)
    (h : code < 0 ∨ 9 < code) :
    pyDaubechies a code = (some TypeErrorMsg, a) ∧
    pyIdaubechies a code = (some TypeErrorMsg, a) := by
  have hd : dcoeffs code = none := by
    unfold dcoeffs
    split_ifs <;> first | rfl | (exfalso; omega)
  unfold pyDaubechies pyIdaubechies
  rw [hd]
  by_cases h2 : a.nd = 2 <;> simp [h2]

/-- Witness for `daubechies_invalid_code_error` at code 10. -/
theorem daubechies_invalid_code_error_witness :
    ((10 : ℤ) < 0 ∨ (9 : ℤ) < 10) ∧
    (pyDaubechies ⟨2, 1, 2, fun _ _ => 0⟩ 10
        = (some TypeErrorMsg, ⟨2, 1, 2, fun _ _ => 0⟩) ∧
     pyIdaubechies ⟨2, 1, 2, fun _ _ => 0⟩ 10
        = (some TypeErrorMsg, ⟨2, 1, 2, fun _ _ => 0⟩)) :=
  ⟨by decide, daubechies_invalid_code_error ⟨2, 1, 2, fun _ _ => 0⟩ 10 (by decide)⟩

end Mahotas
